import Mathlib

/-!
Shallow embedding of the `langgraph_agent` repository core:
the sandbox helpers (`safe_path`, `clamp_text`), the task board
(`TodoManager.update` / `render` / `stats`), the graph nodes
(`should_continue`, `call_model`, `after_tools`) and the `todo_write`
tool, together with theorems settling the specification claims.
-/

namespace LanggraphAgent

/-! ## String helpers -/

/-- `needle.isPrefixOf` the list, one starting position at a time:
Python's `needle in haystack` contiguous-substring test on char lists. -/
def charsContain (haystack needle : List Char) : Bool :=
  match haystack with
  | [] => needle.isEmpty
  | _ :: t => needle.isPrefixOf haystack || charsContain t needle

/-- Python's `needle in haystack` substring test. -/
def strContains (haystack needle : String) : Bool :=
  charsContain haystack.data needle.data

/-- Split a character list on a separator character (every occurrence,
keeping empty chunks), as Python/`pathlib` segment splitting does. -/
def splitOnChar (sep : Char) (cs : List Char) : List (List Char) :=
  cs.foldr
    (fun c acc =>
      match acc with
      | [] => [[c]]
      | a :: rest => if c = sep then [] :: a :: rest else (c :: a) :: rest)
    [[]]

def splitPath (s : String) : List String :=
  (splitOnChar '/' s.data).map String.mk

def startsWithSlash (s : String) : Bool :=
  match s.data with
  | [] => false
  | c :: _ => c = '/'

/-! ## `clamp_text` — src/langgraph_agent/utils/text.py

```python
def clamp_text(text: str, limit: int) -> str:
    if len(text) <= limit:
        return text
    remaining = len(text) - limit
    return text[:limit] + f"\n\n...<truncated {remaining} chars>"
```
-/

def clamp_text (text : String) (limit : Nat) : String :=
  if text.length ≤ limit then text
  else
    String.mk (text.data.take limit) ++
      "\n\n...<truncated " ++ toString (text.length - limit) ++ " chars>"

/-! ## `safe_path` — src/langgraph_agent/utils/filesystem.py

```python
def safe_path(path_value: str) -> Path:
    abs_path = (settings.workspace / str(path_value or "")).resolve()
    try:
        abs_path.relative_to(settings.workspace)
    except ValueError as exc:
        raise WorkspacePathError("Path escapes workspace") from exc
    return abs_path
```

Paths are modelled as lists of components of an absolute POSIX path.
`pathlib` joining lets an absolute right operand replace the workspace;
`resolve()` canonicalizes (drops `""`/`"."` segments, folds `".."`,
which at the filesystem root stays at the root).  `relative_to` succeeds
exactly when the workspace components are a prefix of the resolved
components. -/

def resolveStep (acc : List String) (c : String) : List String :=
  if c = "" ∨ c = "." then acc
  else if c = ".." then acc.dropLast
  else acc ++ [c]

def resolveComponents (start : List String) (comps : List String) : List String :=
  comps.foldl resolveStep start

def resolved_path (workspace : List String) (candidate : String) : List String :=
  resolveComponents
    (if startsWithSlash candidate then [] else workspace)
    (splitPath candidate)

def safe_path (workspace : List String) (candidate : String) :
    Except String (List String) :=
  if workspace.isPrefixOf (resolved_path workspace candidate) then
    Except.ok (resolved_path workspace candidate)
  else
    Except.error "Path escapes workspace"

/-- A component of a canonical absolute path: not empty, not a dot segment. -/
def isCleanComponent (c : String) : Bool :=
  c ≠ "" && c ≠ "." && c ≠ ".."

def isCanonical (p : List String) : Bool :=
  p.all isCleanComponent

/-! ## Messages and routing — src/langgraph_agent/graph/nodes.py -/

structure ToolCall where
  name : String
  id : String
deriving Repr, DecidableEq

inductive Msg where
  | system (content : String)
  | human (content : String)
  | assistant (content : String) (tool_calls : List ToolCall)
  | toolResult (content : String) (tool_call_id : String)
deriving Repr, DecidableEq

def Msg.content : Msg → String
  | .system c => c
  | .human c => c
  | .assistant c _ => c
  | .toolResult c _ => c

/-- `getattr(msg, "tool_calls", None)`: only Assistant messages carry tool calls. -/
def Msg.toolCalls : Msg → List ToolCall
  | .assistant _ tcs => tcs
  | _ => []

def Msg.isSystem : Msg → Bool
  | .system _ => true
  | _ => false

def Msg.isHuman : Msg → Bool
  | .human _ => true
  | _ => false

def Msg.isAssistant : Msg → Bool
  | .assistant _ _ => true
  | _ => false

def Msg.isToolResult : Msg → Bool
  | .toolResult _ _ => true
  | _ => false

inductive Route where
  | tools
  | terminal
deriving Repr, DecidableEq

/-- The dead history scan of `should_continue`: ToolResult messages among
indices `len-1` down to `max(0, len-20)+1`, in descending order. -/
def recentToolMessages (messages : List Msg) : List Msg :=
  ((((List.range messages.length).filter
      (fun i => messages.length - 20 < i)).reverse).map
    (fun i => messages.getD i (Msg.system ""))).filter Msg.isToolResult

/--
```python
def should_continue(state):
    messages = state["messages"]
    if not messages: return END
    last_message = messages[-1]
    if hasattr(last_message, "tool_calls") and last_message.tool_calls:
        return "tools"
    recent_tools = [...]
    has_exported = any("generated_test_cases" in m.content for m in recent_tools)
    if has_exported and isinstance(last_message, AIMessage):
        if not getattr(last_message, "tool_calls", None): return END
    if isinstance(last_message, AIMessage):
        if not getattr(last_message, "tool_calls", None): return END
    return END
```
-/
def should_continue (messages : List Msg) : Route :=
  match messages.getLast? with
  | none => Route.terminal
  | some last =>
    if !last.toolCalls.isEmpty then Route.tools
    else
      let recent_tools := recentToolMessages messages
      let has_exported :=
        recent_tools.any (fun m => strContains m.content "generated_test_cases")
      if has_exported && last.isAssistant && last.toolCalls.isEmpty then
        Route.terminal
      else if last.isAssistant && last.toolCalls.isEmpty then
        Route.terminal
      else
        Route.terminal

/-! ## TodoManager — src/langgraph_agent/models/todo.py

`TodoManager.update` validates a proposed full item list and, only on
success, replaces the board contents (`self.items = cleaned` is the sole
mutation, placed after every check).  `updateState` packages that
mutation point explicitly: the previous board is returned unchanged
whenever the update raises. -/

def RESET : String := "\x1b[0m"

def TODO_PENDING_COLOR : String := "\x1b[38;2;176;176;176m"

def TODO_PROGRESS_COLOR : String := "\x1b[38;2;120;200;255m"

def TODO_COMPLETED_COLOR : String := "\x1b[38;2;34;139;34m"

/-- `settings.todo_statuses` from src/langgraph_agent/config.py. -/
def todo_statuses : List String := ["pending", "in_progress", "completed"]

/-- A raw proposed record (`Dict[str, str]`); a missing key behaves like
the falsy empty string under Python's `raw.get(...) or default`. -/
structure TodoInput where
  id : String := ""
  content : String := ""
  status : String := ""
  activeForm : String := ""
deriving Repr, DecidableEq

structure TodoItem where
  id : String
  content : String
  status : String
  active_form : String
deriving Repr, DecidableEq

/-- Python `str.strip()` on the character sequence. -/
def strTrim (s : String) : String :=
  String.mk (((s.data.dropWhile Char.isWhitespace).reverse.dropWhile
    Char.isWhitespace).reverse)

/-- Python `str.lower()` on the character sequence. -/
def strToLower (s : String) : String :=
  String.mk (s.data.map Char.toLower)

/-- `str(raw.get("id") or index + 1)`. -/
def effId (index : Nat) (raw : TodoInput) : String :=
  if raw.id = "" then toString (index + 1) else raw.id

/-- `str(raw.get("status") or settings.todo_statuses[0]).lower()`. -/
def effStatus (raw : TodoInput) : String :=
  strToLower (if raw.status = "" then "pending" else raw.status)

/-- The cleaned `TodoItem` built from a raw record at a given index. -/
def effItem (index : Nat) (raw : TodoInput) : TodoItem :=
  { id := effId index raw
  , content := strTrim raw.content
  , status := effStatus raw
  , active_form := strTrim raw.activeForm }

/-- The per-item validation of one iteration of `TodoManager.update`. -/
def processItem (index : Nat) (seen : List String) (raw : TodoInput) :
    Except String TodoItem :=
  if seen.contains (effId index raw) then
    Except.error ("Duplicate todo id: " ++ effId index raw)
  else if strTrim raw.content = "" then
    Except.error "Todo content cannot be empty"
  else if ¬ todo_statuses.contains (effStatus raw) = true then
    Except.error ("Status must be one of " ++ String.intercalate ", " todo_statuses)
  else if strTrim raw.activeForm = "" then
    Except.error "Todo activeForm cannot be empty"
  else
    Except.ok (effItem index raw)

/-- The `for index, raw in enumerate(items)` loop of `TodoManager.update`:
accumulates cleaned items, seen ids and the in-progress count, and raises
once the accumulated list exceeds 20 items. -/
def updateLoop : List TodoInput → Nat → List String → Nat → List TodoItem →
    Except String (List TodoItem × Nat)
  | [], _, _, in_progress, cleaned => Except.ok (cleaned, in_progress)
  | raw :: rest, index, seen, in_progress, cleaned =>
    match processItem index seen raw with
    | Except.error e => Except.error e
    | Except.ok item =>
      let in_progress' :=
        if item.status = "in_progress" then in_progress + 1 else in_progress
      let cleaned' := cleaned ++ [item]
      if cleaned'.length > 20 then
        Except.error "Todo list is limited to 20 items"
      else
        updateLoop rest (index + 1) (seen ++ [item.id]) in_progress' cleaned'

/-- `TodoManager._decorate_line`. -/
def decorate_line (mark : String) (todo : TodoItem) : String :=
  let text := mark ++ " " ++ todo.content
  if todo.status = "completed" then
    TODO_COMPLETED_COLOR ++ "\x1b[9m" ++ text ++ RESET
  else if todo.status = "in_progress" then
    TODO_PROGRESS_COLOR ++ text ++ RESET
  else
    TODO_PENDING_COLOR ++ text ++ RESET

/-- `TodoManager.render`: one decorated line per item in stored order,
or a single placeholder line for an empty board. -/
def render (items : List TodoItem) : String :=
  if items.isEmpty then
    TODO_PENDING_COLOR ++ "☐ No todos yet" ++ RESET
  else
    String.intercalate "\n"
      (items.map (fun todo =>
        decorate_line (if todo.status = "completed" then "☒" else "☐") todo))

/-- `TodoManager.update`: on the first violation the result is an error;
on success the cleaned list and its rendering. -/
def TodoManager.update (items : List TodoInput) :
    Except String (List TodoItem × String) :=
  match updateLoop items 0 [] 0 [] with
  | Except.error e => Except.error e
  | Except.ok (cleaned, in_progress) =>
    if in_progress > 1 then
      Except.error "Only one task can be in_progress at a time"
    else
      Except.ok (cleaned, render cleaned)

/-- The board-state transformer of `TodoManager.update`: `self.items` is
assigned only after all validation, so an error leaves the previous board
untouched. -/
def TodoManager.updateState (board : List TodoItem) (items : List TodoInput) :
    List TodoItem × Except String String :=
  match TodoManager.update items with
  | Except.error e => (board, Except.error e)
  | Except.ok (cleaned, view) => (cleaned, Except.ok view)

structure TodoStats where
  total : Nat
  completed : Nat
  in_progress : Nat
deriving Repr, DecidableEq

/-- `TodoManager.stats`. -/
def TodoManager.stats (items : List TodoItem) : TodoStats :=
  { total := items.length
  , completed := items.countP (fun todo => todo.status == "completed")
  , in_progress := items.countP (fun todo => todo.status == "in_progress") }

/-! Derived views of a proposed list, used to state the claims. -/

/-- The cleaned items the loop produces from position `index` on. -/
def cleanedFrom (index : Nat) : List TodoInput → List TodoItem
  | [] => []
  | raw :: rest => effItem index raw :: cleanedFrom (index + 1) rest

def cleanedOf (items : List TodoInput) : List TodoItem :=
  cleanedFrom 0 items

/-- The effective ids of a proposed list from position `index` on. -/
def effIdsFrom (index : Nat) : List TodoInput → List String
  | [] => []
  | raw :: rest => effId index raw :: effIdsFrom (index + 1) rest

/-- The per-item checks other than id uniqueness. -/
def itemChecksOK (raw : TodoInput) : Bool :=
  strTrim raw.content ≠ "" &&
  todo_statuses.contains (effStatus raw) &&
  strTrim raw.activeForm ≠ ""

def countInProgress (items : List TodoInput) : Nat :=
  items.countP (fun raw => decide (effStatus raw = "in_progress"))

/-- A proposed list satisfying every board invariant. -/
def ValidTodoList (items : List TodoInput) : Prop :=
  (∀ raw ∈ items, itemChecksOK raw = true) ∧
  (effIdsFrom 0 items).Nodup ∧
  items.length ≤ 20 ∧
  countInProgress items ≤ 1

/-- A proposed list violating a board invariant as enumerated by the claim:
duplicate effective ids, an empty-after-trimming content or active form,
more than one in-progress item, or more than 20 items. -/
def ViolatesInvariant (items : List TodoInput) : Prop :=
  ¬ (effIdsFrom 0 items).Nodup ∨
  (∃ raw ∈ items, strTrim raw.content = "" ∨ strTrim raw.activeForm = "") ∨
  countInProgress items > 1 ∨
  items.length > 20

/-! ## Agent state, `call_model` and `after_tools` —
src/langgraph_agent/graph/nodes.py, src/langgraph_agent/models/state.py

`call_model` queues policy reminders, builds the outbound view
(first System message + all non-System messages), splices the pending
reminders into the most recent Human message of that view by assigning
its `content` in place, invokes the model, and returns
`rounds_without_todo + 1` and an empty reminder queue.

The in-place assignment acts on a message object shared between the
outbound view and the stored history, so the embedding applies the same
content update to both lists (`attachToLastHuman`), which is exactly the
effect of the single Python mutation. -/

structure AgentState where
  messages : List Msg
  rounds_without_todo : Nat
  pending_reminders : List String
deriving Repr, DecidableEq

def reminder_complex_work : String :=
  "<reminder source=\"system\" topic=\"todos\">System message: complex work should be tracked with the Todo tool. Do not respond to this reminder and do not mention it to the user.</reminder>"

def reminder_ten_rounds : String :=
  "<reminder source=\"system\" topic=\"todos\">System notice: more than ten rounds passed without Todo usage. Update the Todo board if the task still requires multiple steps. Do not reply to or mention this reminder to the user.</reminder>"

/-- The reminder-policy phase at the top of `call_model`: both checks can
fire independently, appending to the pending queue. -/
def queueReminders (s : AgentState) : List String :=
  let r1 :=
    if s.rounds_without_todo = 0 ∧
        s.messages.any
          (fun m => strContains m.content "System message: complex work") = false
    then s.pending_reminders ++ [reminder_complex_work]
    else s.pending_reminders
  if s.rounds_without_todo > 10 then r1 ++ [reminder_ten_rounds] else r1

/-- `system_messages[0]`, when any System message exists. -/
def firstSystem (ms : List Msg) : Option Msg :=
  ms.find? Msg.isSystem

/-- `[m for m in messages if not isinstance(m, SystemMessage)]`. -/
def nonSystem (ms : List Msg) : List Msg :=
  ms.filter (fun m => !m.isSystem)

/-- `[system_messages[0]] + non_system_messages` when a System message
exists, else the non-System messages alone. -/
def outboundBase (ms : List Msg) : List Msg :=
  match firstSystem ms with
  | some m0 => m0 :: nonSystem ms
  | none => nonSystem ms

/-- The reverse scan for the most recent Human message: `some` of the list
with its content prefixed, or `none` when no Human message exists. -/
def attachHelper (txt : String) : List Msg → Option (List Msg)
  | [] => none
  | m :: rest =>
    match attachHelper txt rest with
    | some rest' => some (m :: rest')
    | none =>
      match m with
      | Msg.human c => some (Msg.human (txt ++ "\n\n" ++ c) :: rest)
      | _ => none

/-- `final_messages[i].content = reminder_text + "\n\n" + current_content`
on the most recent Human message, if one exists. -/
def attachToLastHuman (txt : String) (ms : List Msg) : List Msg :=
  (attachHelper txt ms).getD ms

structure CallModelView where
  outbound : List Msg
  stored : List Msg
  new_pending : List String
deriving Repr, DecidableEq

/-- The deterministic message-assembly phase of `call_model`: the outbound
view handed to `llm.invoke`, the stored history after the shared in-place
mutation, and the pending queue carried into the next state (always empty:
the node both clears the list and returns `"pending_reminders": []`). -/
def assembleMessages (s : AgentState) : CallModelView :=
  let reminders := queueReminders s
  let base := outboundBase s.messages
  if reminders ≠ [] ∧ base ≠ [] then
    let txt := String.intercalate "\n" reminders
    { outbound := attachToLastHuman txt base
    , stored := attachToLastHuman txt s.messages
    , new_pending := [] }
  else
    { outbound := base, stored := s.messages, new_pending := [] }

/-- One `call_model` node execution with the opaque model returning
`response`: the stored history gains the response, the counter is returned
as `rounds + 1`, the pending queue as `[]`. -/
def call_model_step (s : AgentState) (response : Msg) : AgentState :=
  { messages := (assembleMessages s).stored ++ [response]
  , rounds_without_todo := s.rounds_without_todo + 1
  , pending_reminders := [] }

/-- The ToolNode phase: the tool-result messages of the turn are appended
in request order. -/
def tools_step (s : AgentState) (results : List Msg) : AgentState :=
  { s with messages := s.messages ++ results }

/--
```python
def after_tools(state):
    messages = state["messages"]
    last_message = messages[-1] if messages else None
    rounds = state.get("rounds_without_todo", 0)
    if isinstance(last_message, ToolMessage):
        if "Status updated" in str(last_message.content) or "No todos" in str(...):
            rounds = 0
    return {"rounds_without_todo": rounds}
```
-/
def after_tools (s : AgentState) : AgentState :=
  match s.messages.getLast? with
  | some (Msg.toolResult content _) =>
    if strContains content "Status updated" = true ∨
        strContains content "No todos" = true then
      { s with rounds_without_todo := 0 }
    else s
  | _ => s

/-! ## `todo_write` — src/langgraph_agent/tools/todo.py and the module
globals of src/langgraph_agent/workflow/context.py

`AGENT_STATE` is a module-level dict;
`AGENT_STATE["rounds_without_todo"] = 0` in `todo_write` writes that dict.
The LangGraph channel `rounds_without_todo` read by `call_model` and
`after_tools` is a distinct value, modelled by `AgentState`. -/

structure GlobalCtx where
  todo_board : List TodoItem
  agent_rounds : Nat
deriving Repr, DecidableEq

/--
```python
@tool
def todo_write(items):
    board_view = TODO_BOARD.update(items)
    AGENT_STATE["rounds_without_todo"] = 0
    stats = TODO_BOARD.stats()
    if stats["total"] == 0:
        summary = "No todos have been created."
    else:
        summary = f"Status updated: {stats['completed']} completed, ..."
    result = board_view + ("\n\n" + summary if summary else "")
    return result
```
-/
def todo_write (g : GlobalCtx) (items : List TodoInput) :
    GlobalCtx × Except String String :=
  match TodoManager.update items with
  | Except.error e => (g, Except.error e)
  | Except.ok (cleaned, board_view) =>
    let stats := TodoManager.stats cleaned
    let summary :=
      if stats.total = 0 then "No todos have been created."
      else
        "Status updated: " ++ toString stats.completed ++ " completed, " ++
          toString stats.in_progress ++ " in progress."
    ({ todo_board := cleaned, agent_rounds := 0 },
      Except.ok (board_view ++ "\n\n" ++ summary))

/-! ## Theorems: sandbox and routing -/

/-- `dropLast` preserves `all`. -/
theorem all_dropLast (p : String → Bool) :
    ∀ (l : List String), l.all p = true → l.dropLast.all p = true := by
  intro l
  induction l with
  | nil => simp
  | cons a t ih =>
    cases t with
    | nil => simp
    | cons b t2 =>
      intro h
      simp only [List.all_cons, Bool.and_eq_true] at h
      simp only [List.dropLast_cons₂, List.all_cons, Bool.and_eq_true]
      exact ⟨h.1, ih (by simp only [List.all_cons, Bool.and_eq_true]; exact h.2)⟩

theorem resolveStep_canonical (start : List String) (c : String)
    (h : isCanonical start = true) : isCanonical (resolveStep start c) = true := by
  unfold resolveStep
  split
  · exact h
  · split
    · exact all_dropLast _ _ h
    · rename_i h1 h2
      simp only [isCanonical, List.all_append, Bool.and_eq_true] at *
      refine ⟨h, ?_⟩
      simp only [List.all_cons, List.all_nil, Bool.and_true]
      simp only [isCleanComponent]
      push_neg at h1
      simp [h1.1, h1.2, h2]

theorem resolveComponents_canonical :
    ∀ (comps start : List String), isCanonical start = true →
      isCanonical (resolveComponents start comps) = true := by
  intro comps
  induction comps with
  | nil => intro start h; exact h
  | cons c rest ih =>
    intro start h
    show isCanonical (resolveComponents (resolveStep start c) rest) = true
    exact ih _ (resolveStep_canonical start c h)

theorem resolved_path_canonical (ws : List String) (cand : String)
    (hws : isCanonical ws = true) :
    isCanonical (resolved_path ws cand) = true := by
  unfold resolved_path
  apply resolveComponents_canonical
  split
  · rfl
  · exact hws

/-- C3: `safe_path` joins the candidate to the workspace root and
canonicalizes; it fails with the path-escape error exactly when the
canonical result does not have the workspace root as a prefix
(the root itself or a descendant), and otherwise returns that canonical
result, confined to the root. -/
theorem safe_path_spec (ws : List String) (cand : String)
    (hws : isCanonical ws = true) :
    ((∃ e, safe_path ws cand = Except.error e) ↔
      ws.isPrefixOf (resolved_path ws cand) = false) ∧
    (∀ p, safe_path ws cand = Except.ok p →
      ws.isPrefixOf p = true ∧ isCanonical p = true) := by
  unfold safe_path
  by_cases h : ws.isPrefixOf (resolved_path ws cand) = true
  · rw [if_pos h]
    refine ⟨⟨fun he => ?_, fun hf => ?_⟩, fun p hp => ?_⟩
    · obtain ⟨e, he⟩ := he
      exact Except.noConfusion he
    · rw [hf] at h
      exact Bool.noConfusion h
    · cases hp
      exact ⟨h, resolved_path_canonical ws cand hws⟩
  · have h' : ws.isPrefixOf (resolved_path ws cand) = false := by
      cases hb : ws.isPrefixOf (resolved_path ws cand)
      · rfl
      · exact absurd hb h
    rw [if_neg h]
    exact ⟨⟨fun _ => h', fun _ => ⟨_, rfl⟩⟩, fun p hp => Except.noConfusion hp⟩

/-- Witness for C3: a `..`-traversal escaping the root fails; a path with
an interior `..` that stays inside the root succeeds and is confined. -/
theorem safe_path_spec_witness :
    (∃ e, safe_path ["home", "user"] "../../etc/passwd" = Except.error e) ∧
    (∀ p, safe_path ["home", "user"] "a/../b/" = Except.ok p →
      (["home", "user"] : List String).isPrefixOf p = true ∧ isCanonical p = true) := by
  constructor
  · exact (safe_path_spec ["home", "user"] "../../etc/passwd" (by decide)).1.mpr
      (by decide)
  · exact (safe_path_spec ["home", "user"] "a/../b/" (by decide)).2

/-- C4: `clamp_text` is total and deterministic; it is the identity on
texts of length ≤ `limit`, and otherwise keeps exactly the first `limit`
characters and appends a marker naming the exact number of dropped
characters, `len(text) - limit`. -/
theorem clamp_text_spec (t : String) (l : Nat) :
    (t.length ≤ l → clamp_text t l = t) ∧
    (l < t.length →
      (clamp_text t l).data.take l = t.data.take l ∧
      clamp_text t l =
        String.mk (t.data.take l) ++
          "\n\n...<truncated " ++ toString (t.length - l) ++ " chars>") := by
  have hlen : t.length = t.data.length := rfl
  constructor
  · intro h
    unfold clamp_text
    rw [if_pos h]
  · intro h
    have hnot : ¬ t.length ≤ l := by omega
    have heq : clamp_text t l =
        String.mk (t.data.take l) ++
          "\n\n...<truncated " ++ toString (t.length - l) ++ " chars>" := by
      unfold clamp_text
      rw [if_neg hnot]
    refine ⟨?_, heq⟩
    have hA : (List.take l t.data).length = l := by
      simp only [List.length_take]
      omega
    rw [heq]
    simp only [String.data_append, List.append_assoc]
    exact List.take_left' hA

/-- Witness for C4 at concrete inputs: identity below the limit,
prefix preservation and exact marker above it. -/
theorem clamp_text_spec_witness :
    clamp_text "hello" 9 = "hello" ∧
    (clamp_text "hello" 3).data.take 3 = ("hello" : String).data.take 3 ∧
    clamp_text "hello" 3 =
      String.mk (("hello" : String).data.take 3) ++
        "\n\n...<truncated " ++ toString (("hello" : String).length - 3) ++ " chars>" := by
  refine ⟨(clamp_text_spec "hello" 9).1 (by decide), ?_, ?_⟩
  · exact ((clamp_text_spec "hello" 3).2 (by decide)).1
  · exact ((clamp_text_spec "hello" 3).2 (by decide)).2

/-- C2: routing depends only on the final Assistant message: the tools
branch is taken iff it carries at least one tool call, the terminal branch
otherwise; the scan of earlier tool-result history never changes the
decision (the statement holds for every earlier history `ms`). -/
theorem should_continue_spec (ms : List Msg) (c : String) (tcs : List ToolCall) :
    should_continue (ms ++ [Msg.assistant c tcs]) =
      if tcs.isEmpty then Route.terminal else Route.tools := by
  unfold should_continue
  rw [List.getLast?_concat]
  cases tcs with
  | nil => simp [Msg.toolCalls]
  | cons h t => simp [Msg.toolCalls]



/-! ## Theorems: the task board -/

theorem contains_iff_mem (l : List String) (a : String) :
    l.contains a = true ↔ a ∈ l := by
  simp [List.contains]

theorem itemChecksOK_iff (raw : TodoInput) :
    itemChecksOK raw = true ↔
      (strTrim raw.content ≠ "" ∧
        effStatus raw ∈ todo_statuses ∧
        strTrim raw.activeForm ≠ "") := by
  simp [itemChecksOK, Bool.and_eq_true, and_assoc]

theorem processItem_ok_iff (index : Nat) (seen : List String) (raw : TodoInput)
    (item : TodoItem) :
    processItem index seen raw = Except.ok item ↔
      (effId index raw ∉ seen ∧ itemChecksOK raw = true ∧
        item = effItem index raw) := by
  unfold processItem
  by_cases h1 : seen.contains (effId index raw) = true
  · rw [if_pos h1]
    have h1' : effId index raw ∈ seen := (contains_iff_mem _ _).mp h1
    simp [h1']
  · rw [if_neg h1]
    have h1' : effId index raw ∉ seen := fun hm => h1 ((contains_iff_mem _ _).mpr hm)
    by_cases h2 : strTrim raw.content = ""
    · rw [if_pos h2]
      simp [itemChecksOK_iff, h2]
    · rw [if_neg h2]
      by_cases h3 : todo_statuses.contains (effStatus raw) = true
      · rw [if_neg (not_not_intro h3)]
        have h3' : effStatus raw ∈ todo_statuses := (contains_iff_mem _ _).mp h3
        by_cases h4 : strTrim raw.activeForm = ""
        · rw [if_pos h4]
          simp [itemChecksOK_iff, h4]
        · rw [if_neg h4]
          constructor
          · intro h
            refine ⟨h1', (itemChecksOK_iff raw).mpr ⟨h2, h3', h4⟩, ?_⟩
            exact (Except.ok.inj h).symm
          · rintro ⟨-, -, rfl⟩
            rfl
      · rw [if_pos h3]
        have h3' : effStatus raw ∉ todo_statuses :=
          fun hm => h3 ((contains_iff_mem _ _).mpr hm)
        simp [itemChecksOK_iff, h3']

theorem cleanedFrom_length :
    ∀ (items : List TodoInput) (index : Nat),
      (cleanedFrom index items).length = items.length := by
  intro items
  induction items with
  | nil => intro index; rfl
  | cons raw rest ih =>
    intro index
    simp [cleanedFrom, ih]

theorem countInProgress_cons (raw : TodoInput) (rest : List TodoInput) :
    countInProgress (raw :: rest) =
      countInProgress rest + if effStatus raw = "in_progress" then 1 else 0 := by
  simp [countInProgress, List.countP_cons]

/-- If every per-item check passes, the effective ids are collision-free
against `seen` as well as pairwise, and the accumulated board stays within
the limit, the update loop succeeds, producing the cleaned items in input
order and the effective in-progress count. -/
theorem updateLoop_ok_of_valid :
    ∀ (items : List TodoInput) (index : Nat) (seen : List String) (ip : Nat)
      (acc : List TodoItem),
      (∀ raw ∈ items, itemChecksOK raw = true) →
      (seen ++ effIdsFrom index items).Nodup →
      acc.length + items.length ≤ 20 →
      updateLoop items index seen ip acc =
        Except.ok (acc ++ cleanedFrom index items, ip + countInProgress items) := by
  intro items
  induction items with
  | nil =>
    intro index seen ip acc _ _ _
    simp [updateLoop, cleanedFrom, countInProgress]
  | cons raw rest ih =>
    intro index seen ip acc hchecks hnodup hlen
    have hck : itemChecksOK raw = true := hchecks raw (List.mem_cons_self _ _)
    simp only [effIdsFrom] at hnodup
    have hnotmem : effId index raw ∉ seen := by
      intro hm
      exact (List.nodup_append.mp hnodup).2.2 hm (List.mem_cons_self _ _)
    have hproc : processItem index seen raw = Except.ok (effItem index raw) :=
      (processItem_ok_iff _ _ _ _).mpr ⟨hnotmem, hck, rfl⟩
    have hguard : ¬ ((acc ++ [effItem index raw]).length > 20) := by
      simp only [List.length_append, List.length_cons, List.length_nil]
      simp only [List.length_cons] at hlen
      omega
    rw [updateLoop, hproc]
    simp only
    rw [if_neg hguard]
    have hih := ih (index + 1) (seen ++ [(effItem index raw).id])
      (if (effItem index raw).status = "in_progress" then ip + 1 else ip)
      (acc ++ [effItem index raw])
      (fun r hr => hchecks r (List.mem_cons_of_mem _ hr))
      (by
        show ((seen ++ [effId index raw]) ++ effIdsFrom (index + 1) rest).Nodup
        rw [← List.append_cons]
        exact hnodup)
      (by
        simp only [List.length_append, List.length_cons, List.length_nil]
        simp only [List.length_cons] at hlen
        omega)
    rw [hih]
    have hitems : acc ++ [effItem index raw] ++ cleanedFrom (index + 1) rest =
        acc ++ cleanedFrom index (raw :: rest) := by
      simp [cleanedFrom]
    have hcount :
        (if (effItem index raw).status = "in_progress" then ip + 1 else ip) +
          countInProgress rest = ip + countInProgress (raw :: rest) := by
      rw [countInProgress_cons]
      show (if effStatus raw = "in_progress" then ip + 1 else ip) +
        countInProgress rest = ip + (countInProgress rest +
          if effStatus raw = "in_progress" then 1 else 0)
      by_cases hs : effStatus raw = "in_progress"
      · rw [if_pos hs, if_pos hs]; omega
      · rw [if_neg hs, if_neg hs]; omega
    rw [hitems, hcount]

/-- Success of the update loop forces every invariant: all per-item checks
pass, effective ids extend `seen` without collision, the length guard held,
and the output is exactly the cleaned items with the in-progress count. -/
theorem updateLoop_ok_inv :
    ∀ (items : List TodoInput) (index : Nat) (seen : List String) (ip : Nat)
      (acc : List TodoItem) (out : List TodoItem × Nat),
      updateLoop items index seen ip acc = Except.ok out →
      (∀ raw ∈ items, itemChecksOK raw = true) ∧
      (seen.Nodup → (seen ++ effIdsFrom index items).Nodup) ∧
      (items ≠ [] → acc.length + items.length ≤ 20) ∧
      out = (acc ++ cleanedFrom index items, ip + countInProgress items) := by
  intro items
  induction items with
  | nil =>
    intro index seen ip acc out h
    have hout : (acc, ip) = out := by simpa [updateLoop] using h
    refine ⟨by simp, ?_, by simp, ?_⟩
    · intro hs
      simpa [effIdsFrom] using hs
    · rw [← hout]
      simp [cleanedFrom, countInProgress]
  | cons raw rest ih =>
    intro index seen ip acc out h
    rw [updateLoop] at h
    cases hp : processItem index seen raw with
    | error e =>
      rw [hp] at h
      simp at h
    | ok item =>
      rw [hp] at h
      simp only at h
      by_cases hg : (acc ++ [item]).length > 20
      · rw [if_pos hg] at h
        simp at h
      · rw [if_neg hg] at h
        obtain ⟨hnm, hck, hit⟩ := (processItem_ok_iff _ _ _ _).mp hp
        subst hit
        obtain ⟨ihchecks, ihnodup, ihlen, ihout⟩ := ih _ _ _ _ _ h
        refine ⟨?_, ?_, ?_, ?_⟩
        · intro r hr
          rcases List.mem_cons.mp hr with hr | hr
          · rw [hr]; exact hck
          · exact ihchecks r hr
        · intro hs
          simp only [effIdsFrom]
          rw [List.append_cons]
          have hseen : (seen ++ [(effItem index raw).id]).Nodup := by
            rw [List.nodup_append]
            refine ⟨hs, List.nodup_singleton _, ?_⟩
            intro a ha hmem
            rw [List.mem_singleton] at hmem
            rw [hmem] at ha
            exact hnm ha
          exact ihnodup hseen
        · intro _
          simp only [List.length_cons]
          cases rest with
          | nil =>
            simp only [List.length_append, List.length_cons, List.length_nil] at hg
            simp only [List.length_nil]
            omega
          | cons r2 t2 =>
            have hlen2 := ihlen (by simp)
            simp only [List.length_append, List.length_cons, List.length_nil] at hlen2 ⊢
            omega
        · rw [ihout]
          have hitems : acc ++ [effItem index raw] ++ cleanedFrom (index + 1) rest =
              acc ++ cleanedFrom index (raw :: rest) := by
            simp [cleanedFrom]
          have hcount :
              (if (effItem index raw).status = "in_progress" then ip + 1 else ip) +
                countInProgress rest = ip + countInProgress (raw :: rest) := by
            rw [countInProgress_cons]
            show (if effStatus raw = "in_progress" then ip + 1 else ip) +
              countInProgress rest = ip + (countInProgress rest +
                if effStatus raw = "in_progress" then 1 else 0)
            by_cases hs : effStatus raw = "in_progress"
            · rw [if_pos hs, if_pos hs]; omega
            · rw [if_neg hs, if_neg hs]; omega
          rw [hitems, hcount]

/-- A valid proposed list makes `TodoManager.update` succeed with the
cleaned items (full replacement, input order) and their rendering. -/
theorem update_ok_of_valid (items : List TodoInput) (h : ValidTodoList items) :
    TodoManager.update items =
      Except.ok (cleanedOf items, render (cleanedOf items)) := by
  obtain ⟨hchecks, hnodup, hlen, hcount⟩ := h
  have hl := updateLoop_ok_of_valid items 0 [] 0 []
    hchecks (by simpa using hnodup) (by simpa using hlen)
  unfold TodoManager.update
  rw [hl]
  simp only
  rw [if_neg (by omega)]
  simp [cleanedOf]

/-- A successful `TodoManager.update` forces the full invariant set and
determines the result. -/
theorem update_ok_inv (items : List TodoInput) (cleaned : List TodoItem)
    (view : String) :
    TodoManager.update items = Except.ok (cleaned, view) →
      ValidTodoList items ∧ cleaned = cleanedOf items ∧
        view = render (cleanedOf items) := by
  intro h
  unfold TodoManager.update at h
  cases hl : updateLoop items 0 [] 0 [] with
  | error e =>
    rw [hl] at h
    simp at h
  | ok p =>
    rw [hl] at h
    obtain ⟨c, ipn⟩ := p
    simp only at h
    by_cases hip : ipn > 1
    · rw [if_pos hip] at h
      simp at h
    · rw [if_neg hip] at h
      obtain ⟨hc, hview⟩ : c = cleaned ∧ render c = view := by
        simpa using h
      obtain ⟨hchecks, hnodup, hlen, hout⟩ :=
        updateLoop_ok_inv items 0 [] 0 [] (c, ipn) hl
      have hout1 : c = cleanedFrom 0 items := by
        have := congrArg Prod.fst hout
        simpa using this
      have hout2 : ipn = countInProgress items := by
        have := congrArg Prod.snd hout
        simpa using this
      refine ⟨⟨hchecks, ?_, ?_, by omega⟩, ?_, ?_⟩
      · have := hnodup List.nodup_nil
        simpa using this
      · cases items with
        | nil => simp
        | cons r t =>
          have := hlen (by simp)
          simpa using this
      · rw [← hc, hout1]; rfl
      · rw [← hview, hout1]; rfl

/-- C1: a proposed list violating any board invariant (duplicate effective
id, empty-after-trimming content or active form, more than one in-progress
item, more than 20 items) makes the board update fail with a validation
error while the previous board contents are returned exactly unchanged;
a valid proposed list replaces the entire board and returns the rendered
view. -/
theorem todo_update_spec (board : List TodoItem) (items : List TodoInput) :
    (ViolatesInvariant items →
      ∃ e, TodoManager.updateState board items = (board, Except.error e)) ∧
    (ValidTodoList items →
      TodoManager.updateState board items =
        (cleanedOf items, Except.ok (render (cleanedOf items)))) := by
  constructor
  · intro hv
    cases hu : TodoManager.update items with
    | error e =>
      exact ⟨e, by simp [TodoManager.updateState, hu]⟩
    | ok p =>
      obtain ⟨c, v⟩ := p
      obtain ⟨⟨hchecks, hnodup, hlen, hcount⟩, _, _⟩ := update_ok_inv items c v hu
      exfalso
      rcases hv with h | ⟨r, hr, hbad⟩ | h | h
      · exact h hnodup
      · have hok := (itemChecksOK_iff r).mp (hchecks r hr)
        rcases hbad with hb | hb
        · exact hok.1 hb
        · exact hok.2.2 hb
      · omega
      · omega
  · intro hv
    simp [TodoManager.updateState, update_ok_of_valid items hv]

/-- Witness for C1: a duplicate-id list fails leaving a non-empty board
unchanged; a distinct two-item list replaces that board. -/
theorem todo_update_spec_witness :
    (∃ e, TodoManager.updateState
        [{ id := "0", content := "old", status := "pending", active_form := "o" }]
        [{ id := "1", content := "a", status := "pending", activeForm := "x" },
         { id := "1", content := "b", status := "pending", activeForm := "y" }] =
      ([{ id := "0", content := "old", status := "pending", active_form := "o" }],
        Except.error e)) ∧
    TodoManager.updateState
        [{ id := "0", content := "old", status := "pending", active_form := "o" }]
        [{ id := "1", content := "a", status := "in_progress", activeForm := "x" },
         { id := "2", content := "b", status := "completed", activeForm := "y" }] =
      (cleanedOf
          [{ id := "1", content := "a", status := "in_progress", activeForm := "x" },
           { id := "2", content := "b", status := "completed", activeForm := "y" }],
        Except.ok (render (cleanedOf
          [{ id := "1", content := "a", status := "in_progress", activeForm := "x" },
           { id := "2", content := "b", status := "completed", activeForm := "y" }]))) := by
  constructor
  · exact (todo_update_spec
      [{ id := "0", content := "old", status := "pending", active_form := "o" }]
      [{ id := "1", content := "a", status := "pending", activeForm := "x" },
       { id := "1", content := "b", status := "pending", activeForm := "y" }]).1
      (by unfold ViolatesInvariant; decide)
  · exact (todo_update_spec
      [{ id := "0", content := "old", status := "pending", active_form := "o" }]
      [{ id := "1", content := "a", status := "in_progress", activeForm := "x" },
       { id := "2", content := "b", status := "completed", activeForm := "y" }]).2
      (by unfold ValidTodoList; decide)

/-- C9 counterexample: the empty list is duplicate-free, within the size
limit and has at most one in-progress item, yet `render(update([]))` is
the one-line placeholder — one output line for zero input items. -/
theorem render_update_empty_cex :
    TodoManager.updateState [] [] =
      ([], Except.ok (TODO_PENDING_COLOR ++ "☐ No todos yet" ++ RESET)) ∧
    (splitOnChar '\n' (TODO_PENDING_COLOR ++ "☐ No todos yet" ++ RESET).data).length
      = 1 ∧
    ([] : List TodoInput).length = 0 := by
  refine ⟨rfl, by decide, rfl⟩

/-- C9 (amended to non-empty input lists): for every valid, duplicate-free,
single-in-progress, non-empty list of at most 20 items, `render(update(items))`
never fails and renders exactly one decorated line per input item, joined
in input order. -/
theorem render_update_roundtrip (items : List TodoInput)
    (hv : ValidTodoList items) (hne : items ≠ []) :
    (∀ board, TodoManager.updateState board items =
      (cleanedOf items,
        Except.ok (String.intercalate "\n" ((cleanedOf items).map (fun todo =>
          decorate_line (if todo.status = "completed" then "☒" else "☐") todo))))) ∧
    (cleanedOf items).length = items.length := by
  have hlen : (cleanedOf items).length = items.length := cleanedFrom_length items 0
  have hnonempty : (cleanedOf items).isEmpty = false := by
    cases hc : cleanedOf items with
    | nil =>
      exfalso
      apply hne
      have := hlen
      rw [hc] at this
      simpa using this.symm
    | cons a t => rfl
  refine ⟨?_, hlen⟩
  intro board
  have hu := update_ok_of_valid items hv
  have hrender : render (cleanedOf items) =
      String.intercalate "\n" ((cleanedOf items).map (fun todo =>
        decorate_line (if todo.status = "completed" then "☒" else "☐") todo)) := by
    unfold render
    rw [hnonempty]
    simp
  simp [TodoManager.updateState, hu, hrender]

/-- Witness for C9: a concrete valid two-item list round-trips to two
decorated lines in input order. -/
theorem render_update_roundtrip_witness :
    (∀ board, TodoManager.updateState board
        [{ id := "1", content := "a", status := "in_progress", activeForm := "x" },
         { id := "2", content := "b", status := "pending", activeForm := "y" }] =
      (cleanedOf
          [{ id := "1", content := "a", status := "in_progress", activeForm := "x" },
           { id := "2", content := "b", status := "pending", activeForm := "y" }],
        Except.ok (String.intercalate "\n" ((cleanedOf
          [{ id := "1", content := "a", status := "in_progress", activeForm := "x" },
           { id := "2", content := "b", status := "pending", activeForm := "y" }]).map
            (fun todo =>
              decorate_line (if todo.status = "completed" then "☒" else "☐") todo))))) ∧
    (cleanedOf
        [{ id := "1", content := "a", status := "in_progress", activeForm := "x" },
         { id := "2", content := "b", status := "pending", activeForm := "y" }]).length =
      ([{ id := "1", content := "a", status := "in_progress", activeForm := "x" },
        { id := "2", content := "b", status := "pending", activeForm := "y" }] :
          List TodoInput).length :=
  render_update_roundtrip
    [{ id := "1", content := "a", status := "in_progress", activeForm := "x" },
     { id := "2", content := "b", status := "pending", activeForm := "y" }]
    (by unfold ValidTodoList; decide) (by decide)

/-! ## Theorems: message assembly -/

theorem charsContain_append (x y pat : List Char)
    (h : charsContain y pat = true) : charsContain (x ++ y) pat = true := by
  induction x with
  | nil => simpa using h
  | cons a t ih =>
    show (pat.isPrefixOf (a :: (t ++ y)) || charsContain (t ++ y) pat) = true
    rw [ih, Bool.or_true]

theorem strContains_append_right (x y pat : String)
    (h : strContains y pat = true) : strContains (x ++ y) pat = true := by
  unfold strContains at *
  rw [String.data_append]
  exact charsContain_append _ _ _ h

theorem isPrefixOf_append (p : List Char) :
    ∀ (a b : List Char), p.isPrefixOf a = true → p.isPrefixOf (a ++ b) = true := by
  induction p with
  | nil => intro a b _; simp
  | cons c p' ih =>
    intro a b h
    cases a with
    | nil => simp [List.isPrefixOf] at h
    | cons a0 a' =>
      simp only [List.isPrefixOf, List.cons_append, Bool.and_eq_true] at h ⊢
      exact ⟨h.1, ih a' b h.2⟩

theorem charsContain_of_prefix (s pat : List Char)
    (h : pat.isPrefixOf s = true) : charsContain s pat = true := by
  cases s with
  | nil =>
    cases pat with
    | nil => rfl
    | cons c t => simp [List.isPrefixOf] at h
  | cons c t =>
    show (pat.isPrefixOf (c :: t) || charsContain t pat) = true
    rw [h, Bool.true_or]

theorem attachHelper_cons (txt : String) (m : Msg) (rest : List Msg) :
    attachHelper txt (m :: rest) =
      match attachHelper txt rest with
      | some rest' => some (m :: rest')
      | none =>
        match m with
        | Msg.human c => some (Msg.human (txt ++ "\n\n" ++ c) :: rest)
        | _ => none := rfl

theorem nonSystem_cons (m : Msg) (rest : List Msg) :
    nonSystem (m :: rest) =
      if m.isSystem = true then nonSystem rest else m :: nonSystem rest := by
  simp only [nonSystem, List.filter_cons]
  cases hs : m.isSystem <;> simp

theorem firstSystem_cons (m : Msg) (rest : List Msg) :
    firstSystem (m :: rest) =
      if m.isSystem = true then some m else firstSystem rest := by
  simp only [firstSystem, List.find?_cons]
  cases hs : m.isSystem <;> simp

/-- Filtering out System messages commutes with the reminder attachment:
the most recent Human message is the same object in both lists. -/
theorem attachHelper_nonSystem (txt : String) :
    ∀ ms : List Msg,
      attachHelper txt (nonSystem ms) = (attachHelper txt ms).map nonSystem := by
  intro ms
  induction ms with
  | nil => rfl
  | cons m rest ih =>
    rw [attachHelper_cons]
    cases hr : attachHelper txt rest with
    | some r' =>
      by_cases hs : m.isSystem = true
      · rw [nonSystem_cons, if_pos hs, ih, hr]
        simp only [Option.map_some']
        rw [nonSystem_cons, if_pos hs]
      · rw [nonSystem_cons, if_neg hs, attachHelper_cons, ih, hr]
        simp only [Option.map_some']
        rw [nonSystem_cons, if_neg hs]
    | none =>
      cases m with
      | system c =>
        rw [nonSystem_cons, if_pos (show (Msg.system c).isSystem = true from rfl),
          ih, hr]
      | human c =>
        rw [nonSystem_cons, if_neg (by simp [Msg.isSystem]), attachHelper_cons,
          ih, hr]
        simp only [Option.map_none', Option.map_some']
        rw [nonSystem_cons, if_neg (by simp [Msg.isSystem])]
      | assistant c tcs =>
        rw [nonSystem_cons, if_neg (by simp [Msg.isSystem]), attachHelper_cons,
          ih, hr]
        rfl
      | toolResult c i =>
        rw [nonSystem_cons, if_neg (by simp [Msg.isSystem]), attachHelper_cons,
          ih, hr]
        rfl

/-- The reminder attachment modifies only a Human message, so the first
System message is untouched. -/
theorem attachHelper_firstSystem (txt : String) :
    ∀ (ms ms' : List Msg), attachHelper txt ms = some ms' →
      firstSystem ms' = firstSystem ms := by
  intro ms
  induction ms with
  | nil => intro ms' h; cases h
  | cons m rest ih =>
    intro ms' h
    rw [attachHelper_cons] at h
    cases hr : attachHelper txt rest with
    | some r' =>
      rw [hr] at h
      cases h
      rw [firstSystem_cons, firstSystem_cons]
      by_cases hs : m.isSystem = true
      · rw [if_pos hs, if_pos hs]
      · rw [if_neg hs, if_neg hs]
        exact ih r' hr
    | none =>
      rw [hr] at h
      cases m with
      | human c =>
        cases h
        rw [firstSystem_cons, firstSystem_cons,
          if_neg (by simp [Msg.isSystem]), if_neg (by simp [Msg.isSystem])]
      | system c => cases h
      | assistant c tcs => cases h
      | toolResult c i => cases h

theorem attachHelper_none_of_no_human (txt : String) :
    ∀ ms : List Msg, (∀ m ∈ ms, m.isHuman = false) →
      attachHelper txt ms = none := by
  intro ms
  induction ms with
  | nil => intro _; rfl
  | cons m rest ih =>
    intro h
    rw [attachHelper_cons, ih (fun x hx => h x (List.mem_cons_of_mem _ hx))]
    cases m with
    | human c =>
      have := h (Msg.human c) (List.mem_cons_self _ _)
      simp [Msg.isHuman] at this
    | system c => rfl
    | assistant c tcs => rfl
    | toolResult c i => rfl

/-- The attachment rewrites exactly the most recent Human message. -/
theorem attachHelper_split (txt : String) (c : String) (l2 : List Msg)
    (hl2 : ∀ m ∈ l2, m.isHuman = false) :
    ∀ l1 : List Msg,
      attachHelper txt (l1 ++ Msg.human c :: l2) =
        some (l1 ++ Msg.human (txt ++ "\n\n" ++ c) :: l2) := by
  intro l1
  induction l1 with
  | nil =>
    rw [List.nil_append, attachHelper_cons,
      attachHelper_none_of_no_human txt l2 hl2]
    rfl
  | cons m t ih =>
    rw [List.cons_append, attachHelper_cons, ih]
    rfl

/-- Each original message survives the attachment, either unchanged or as
the same Human message with the reminder text prepended. -/
theorem attachHelper_mem (txt : String) :
    ∀ (ms ms' : List Msg), attachHelper txt ms = some ms' →
      ∀ m ∈ ms, m ∈ ms' ∨
        (∃ c, m = Msg.human c ∧ Msg.human (txt ++ "\n\n" ++ c) ∈ ms') := by
  intro ms
  induction ms with
  | nil => intro ms' h; cases h
  | cons m0 rest ih =>
    intro ms' h m hm
    rw [attachHelper_cons] at h
    cases hr : attachHelper txt rest with
    | some r' =>
      rw [hr] at h
      cases h
      rcases List.mem_cons.mp hm with hm | hm
      · exact Or.inl (hm ▸ List.mem_cons_self _ _)
      · rcases ih r' hr m hm with h' | ⟨c, hc, hc'⟩
        · exact Or.inl (List.mem_cons_of_mem _ h')
        · exact Or.inr ⟨c, hc, List.mem_cons_of_mem _ hc'⟩
    | none =>
      rw [hr] at h
      cases m0 with
      | human c0 =>
        cases h
        rcases List.mem_cons.mp hm with hm | hm
        · exact Or.inr ⟨c0, hm, List.mem_cons_self _ _⟩
        · exact Or.inl (List.mem_cons_of_mem _ hm)
      | system c0 => cases h
      | assistant c0 tcs => cases h
      | toolResult c0 i => cases h

theorem countP_nonSystem (l : List Msg) :
    (nonSystem l).countP Msg.isSystem = 0 := by
  rw [List.countP_eq_zero]
  intro m hm
  have h := List.mem_filter.mp hm
  simpa using h.2

/-- When a Human message exists, the attachment succeeds on the outbound
view and yields precisely the filtered view of the mutated history. -/
theorem outbound_eq_of_attach (txt : String) (ms ms' : List Msg)
    (h : attachHelper txt ms = some ms') :
    attachToLastHuman txt (outboundBase ms) = outboundBase ms' := by
  unfold outboundBase
  rw [attachHelper_firstSystem txt ms ms' h]
  cases hf : firstSystem ms with
  | some m0 =>
    have hm0 : m0.isSystem = true := List.find?_some hf
    obtain ⟨c0, rfl⟩ : ∃ c0, m0 = Msg.system c0 := by
      cases m0 with
      | system c0 => exact ⟨c0, rfl⟩
      | human c0 => simp [Msg.isSystem] at hm0
      | assistant c0 tcs => simp [Msg.isSystem] at hm0
      | toolResult c0 i => simp [Msg.isSystem] at hm0
    unfold attachToLastHuman
    rw [attachHelper_cons, attachHelper_nonSystem, h]
    rfl
  | none =>
    unfold attachToLastHuman
    rw [attachHelper_nonSystem, h]
    rfl

/-- Without a Human message the attachment leaves the outbound view as
built. -/
theorem outbound_eq_of_none (txt : String) (ms : List Msg)
    (h : attachHelper txt ms = none) :
    attachToLastHuman txt (outboundBase ms) = outboundBase ms := by
  unfold outboundBase
  cases hf : firstSystem ms with
  | some m0 =>
    have hm0 : m0.isSystem = true := List.find?_some hf
    obtain ⟨c0, rfl⟩ : ∃ c0, m0 = Msg.system c0 := by
      cases m0 with
      | system c0 => exact ⟨c0, rfl⟩
      | human c0 => simp [Msg.isSystem] at hm0
      | assistant c0 tcs => simp [Msg.isSystem] at hm0
      | toolResult c0 i => simp [Msg.isSystem] at hm0
    unfold attachToLastHuman
    rw [attachHelper_cons, attachHelper_nonSystem, h]
    rfl
  | none =>
    unfold attachToLastHuman
    rw [attachHelper_nonSystem, h]
    rfl

theorem assembleMessages_eq (s : AgentState) :
    assembleMessages s =
      if queueReminders s ≠ [] ∧ outboundBase s.messages ≠ [] then
        { outbound := attachToLastHuman
            (String.intercalate "\n" (queueReminders s)) (outboundBase s.messages)
        , stored := attachToLastHuman
            (String.intercalate "\n" (queueReminders s)) s.messages
        , new_pending := [] }
      else
        { outbound := outboundBase s.messages
        , stored := s.messages
        , new_pending := [] } := rfl

theorem mem_outboundBase_of_nonSystem (m : Msg) (ms : List Msg)
    (hm : m ∈ ms) (hs : m.isSystem = false) : m ∈ outboundBase ms := by
  have hmem : m ∈ nonSystem ms := List.mem_filter.mpr ⟨hm, by simp [hs]⟩
  unfold outboundBase
  cases firstSystem ms with
  | some m0 => exact List.mem_cons_of_mem _ hmem
  | none => exact hmem

theorem isPrefixOf_self : ∀ p : List Char, p.isPrefixOf p = true := by
  intro p
  induction p with
  | nil => rfl
  | cons c t ih => simp [List.isPrefixOf, ih]

/-- C6 counterexample: a state whose history holds no System message
produces an outbound view with zero System messages, not exactly one. -/
theorem outbound_system_cex :
    ((assembleMessages
      { messages := [Msg.human "hi"], rounds_without_todo := 5,
        pending_reminders := [] }).outbound.countP Msg.isSystem) = 0 ∧
    (0 : Nat) ≠ 1 := by
  refine ⟨by decide, by decide⟩

/-- C6 (amended to histories containing at least one System message): the
outbound view is the first System message of the stored history followed by
the non-System messages in stored order; it contains exactly one System
message; and the System-filtering itself never mutates storage (with no
pending reminders the stored history is returned unchanged). -/
theorem outbound_single_system (s : AgentState) (m0 : Msg)
    (h : firstSystem s.messages = some m0) :
    (assembleMessages s).outbound =
      m0 :: nonSystem ((assembleMessages s).stored) ∧
    ((assembleMessages s).outbound.countP Msg.isSystem) = 1 ∧
    (queueReminders s = [] → (assembleMessages s).stored = s.messages) := by
  have hsys : m0.isSystem = true := List.find?_some h
  have hcount : ∀ l : List Msg, (m0 :: nonSystem l).countP Msg.isSystem = 1 := by
    intro l
    rw [List.countP_cons_of_pos _ _ hsys, countP_nonSystem]
  rw [assembleMessages_eq]
  by_cases hc : queueReminders s ≠ [] ∧ outboundBase s.messages ≠ []
  · rw [if_pos hc]
    dsimp only
    cases ha : attachHelper (String.intercalate "\n" (queueReminders s)) s.messages with
    | none =>
      have h1 : attachToLastHuman
          (String.intercalate "\n" (queueReminders s)) s.messages = s.messages := by
        unfold attachToLastHuman
        rw [ha]
        rfl
      have h2 := outbound_eq_of_none
        (String.intercalate "\n" (queueReminders s)) s.messages ha
      rw [h1, h2]
      have hbase : outboundBase s.messages = m0 :: nonSystem s.messages := by
        unfold outboundBase
        rw [h]
      rw [hbase]
      exact ⟨rfl, hcount _, fun _ => rfl⟩
    | some ms' =>
      have h1 : attachToLastHuman
          (String.intercalate "\n" (queueReminders s)) s.messages = ms' := by
        unfold attachToLastHuman
        rw [ha]
        rfl
      have h2 := outbound_eq_of_attach
        (String.intercalate "\n" (queueReminders s)) s.messages ms' ha
      rw [h1, h2]
      have hf' : firstSystem ms' = some m0 := by
        rw [attachHelper_firstSystem _ _ _ ha, h]
      have hbase : outboundBase ms' = m0 :: nonSystem ms' := by
        unfold outboundBase
        rw [hf']
      rw [hbase]
      exact ⟨rfl, hcount _, fun hq => absurd hq hc.1⟩
  · rw [if_neg hc]
    dsimp only
    have hbase : outboundBase s.messages = m0 :: nonSystem s.messages := by
      unfold outboundBase
      rw [h]
    rw [hbase]
    exact ⟨rfl, hcount _, fun _ => rfl⟩

/-- Witness for the amended C6 at a concrete state with two System
messages: only the first is kept, at the head. -/
theorem outbound_single_system_witness :
    (assembleMessages
      { messages := [Msg.system "sp", Msg.human "hi", Msg.system "sp2"],
        rounds_without_todo := 5, pending_reminders := [] }).outbound =
      Msg.system "sp" :: nonSystem ((assembleMessages
        { messages := [Msg.system "sp", Msg.human "hi", Msg.system "sp2"],
          rounds_without_todo := 5, pending_reminders := [] }).stored) ∧
    ((assembleMessages
      { messages := [Msg.system "sp", Msg.human "hi", Msg.system "sp2"],
        rounds_without_todo := 5, pending_reminders := [] }).outbound.countP
          Msg.isSystem) = 1 ∧
    (queueReminders
        { messages := [Msg.system "sp", Msg.human "hi", Msg.system "sp2"],
          rounds_without_todo := 5, pending_reminders := [] } = [] →
      (assembleMessages
        { messages := [Msg.system "sp", Msg.human "hi", Msg.system "sp2"],
          rounds_without_todo := 5, pending_reminders := [] }).stored =
        [Msg.system "sp", Msg.human "hi", Msg.system "sp2"]) :=
  outbound_single_system
    { messages := [Msg.system "sp", Msg.human "hi", Msg.system "sp2"],
      rounds_without_todo := 5, pending_reminders := [] }
    (Msg.system "sp") (by decide)

/-- Core of the reminder-attachment analysis, shared by the consumption
and persistence theorems: with a non-empty effective queue and a most
recent Human message, the stored history gets the joined reminder text
prepended to that message, the outbound view is the filtered view of the
mutated history, and the outgoing queue is empty. -/
theorem stored_split_of_attach (s : AgentState) (hq : queueReminders s ≠ [])
    (l1 l2 : List Msg) (c : String)
    (hsplit : s.messages = l1 ++ Msg.human c :: l2)
    (hl2 : ∀ m ∈ l2, m.isHuman = false) :
    (assembleMessages s).stored =
      l1 ++ Msg.human
        (String.intercalate "\n" (queueReminders s) ++ "\n\n" ++ c) :: l2 ∧
    (assembleMessages s).outbound =
      outboundBase ((assembleMessages s).stored) ∧
    (assembleMessages s).new_pending = [] := by
  have ha : attachHelper (String.intercalate "\n" (queueReminders s))
      s.messages = some (l1 ++ Msg.human
        (String.intercalate "\n" (queueReminders s) ++ "\n\n" ++ c) :: l2) := by
    rw [hsplit]
    exact attachHelper_split _ c l2 hl2 l1
  have hmem : Msg.human c ∈ s.messages := by
    rw [hsplit]
    exact List.mem_append_right _ (List.mem_cons_self _ _)
  have hb : outboundBase s.messages ≠ [] := by
    have hmm := mem_outboundBase_of_nonSystem (Msg.human c) s.messages hmem
      (by simp [Msg.isSystem])
    intro h0
    rw [h0] at hmm
    cases hmm
  rw [assembleMessages_eq, if_pos ⟨hq, hb⟩]
  dsimp only
  have hst : attachToLastHuman
      (String.intercalate "\n" (queueReminders s)) s.messages =
      l1 ++ Msg.human
        (String.intercalate "\n" (queueReminders s) ++ "\n\n" ++ c) :: l2 := by
    unfold attachToLastHuman
    rw [ha]
    rfl
  refine ⟨hst, ?_, rfl⟩
  rw [hst]
  exact outbound_eq_of_attach _ _ _ ha

/-- C5: with a non-empty effective reminder queue, the reminders are
newline-joined in queue order and prepended to the most recent Human
message — in storage and hence in the outbound view, which is exactly the
filtered view of the mutated storage — and the queue carried into the next
state is empty; if no Human message exists, no message receives the text
and the queue is still cleared. -/
theorem reminder_consumption (s : AgentState) (hq : queueReminders s ≠ []) :
    ((∀ m ∈ s.messages, m.isHuman = false) →
      (assembleMessages s).outbound = outboundBase s.messages ∧
      (assembleMessages s).stored = s.messages ∧
      (assembleMessages s).new_pending = []) ∧
    (∀ (l1 l2 : List Msg) (c : String),
      s.messages = l1 ++ Msg.human c :: l2 →
      (∀ m ∈ l2, m.isHuman = false) →
      (assembleMessages s).stored =
        l1 ++ Msg.human
          (String.intercalate "\n" (queueReminders s) ++ "\n\n" ++ c) :: l2 ∧
      (assembleMessages s).outbound =
        outboundBase ((assembleMessages s).stored) ∧
      (assembleMessages s).new_pending = []) := by
  constructor
  · intro hnoh
    have ha : attachHelper
        (String.intercalate "\n" (queueReminders s)) s.messages = none :=
      attachHelper_none_of_no_human _ _ hnoh
    rw [assembleMessages_eq]
    by_cases hb : outboundBase s.messages ≠ []
    · rw [if_pos ⟨hq, hb⟩]
      dsimp only
      refine ⟨outbound_eq_of_none _ _ ha, ?_, rfl⟩
      unfold attachToLastHuman
      rw [ha]
      rfl
    · rw [if_neg (fun hx => hb hx.2)]
      exact ⟨rfl, rfl, rfl⟩
  · intro l1 l2 c hsplit hl2
    exact stored_split_of_attach s hq l1 l2 c hsplit hl2

/-- Witness for C5 at a concrete state: two queued reminders are joined
with a newline, prepended to the only Human message, and the outgoing
queue is empty. -/
theorem reminder_consumption_witness :
    (assembleMessages
      { messages := [Msg.system "sp", Msg.human "hi"], rounds_without_todo := 3,
        pending_reminders := ["r1", "r2"] }).stored =
      [Msg.system "sp"] ++ Msg.human
        (String.intercalate "\n" (queueReminders
          { messages := [Msg.system "sp", Msg.human "hi"],
            rounds_without_todo := 3, pending_reminders := ["r1", "r2"] }) ++
          "\n\n" ++ "hi") :: [] ∧
    (assembleMessages
      { messages := [Msg.system "sp", Msg.human "hi"], rounds_without_todo := 3,
        pending_reminders := ["r1", "r2"] }).outbound =
      outboundBase ((assembleMessages
        { messages := [Msg.system "sp", Msg.human "hi"], rounds_without_todo := 3,
          pending_reminders := ["r1", "r2"] }).stored) ∧
    (assembleMessages
      { messages := [Msg.system "sp", Msg.human "hi"], rounds_without_todo := 3,
        pending_reminders := ["r1", "r2"] }).new_pending = [] :=
  (reminder_consumption
    { messages := [Msg.system "sp", Msg.human "hi"], rounds_without_todo := 3,
      pending_reminders := ["r1", "r2"] } (by decide)).2
    [Msg.system "sp"] [] "hi" rfl (by decide)

/-- C10: the reminder attachment rewrites the stored Human message itself
(the outbound view and the history share the object), so the reminder text
permanently prefixes that message in storage; and any later history
containing a Human message whose content carries the reminder text yields
an outbound view that still carries it (attachment only prepends more
text, preserving containment). -/
theorem reminder_mutation_persists (s : AgentState) (l1 l2 : List Msg)
    (c : String) (hq : queueReminders s ≠ [])
    (hsplit : s.messages = l1 ++ Msg.human c :: l2)
    (hl2 : ∀ m ∈ l2, m.isHuman = false) :
    (assembleMessages s).stored =
      l1 ++ Msg.human
        (String.intercalate "\n" (queueReminders s) ++ "\n\n" ++ c) :: l2 ∧
    strContains (String.intercalate "\n" (queueReminders s) ++ "\n\n" ++ c)
      (String.intercalate "\n" (queueReminders s)) = true ∧
    (∀ s' : AgentState,
      (∃ m ∈ s'.messages, m.isHuman = true ∧
        strContains m.content
          (String.intercalate "\n" (queueReminders s)) = true) →
      ∃ m' ∈ (assembleMessages s').outbound, m'.isHuman = true ∧
        strContains m'.content
          (String.intercalate "\n" (queueReminders s)) = true) := by
  refine ⟨(stored_split_of_attach s hq l1 l2 c hsplit hl2).1, ?_, ?_⟩
  · unfold strContains
    apply charsContain_of_prefix
    rw [String.data_append, String.data_append]
    rw [List.append_assoc]
    exact isPrefixOf_append _ _ _ (isPrefixOf_self _)
  · intro s' ⟨m, hm, hh, hcont⟩
    have hnsys : m.isSystem = false := by
      cases m with
      | human cm => rfl
      | system cm => simp [Msg.isHuman] at hh
      | assistant cm tcs => simp [Msg.isHuman] at hh
      | toolResult cm i => simp [Msg.isHuman] at hh
    have hbase : m ∈ outboundBase s'.messages :=
      mem_outboundBase_of_nonSystem m s'.messages hm hnsys
    rw [assembleMessages_eq]
    by_cases hc2 : queueReminders s' ≠ [] ∧ outboundBase s'.messages ≠ []
    · rw [if_pos hc2]
      dsimp only
      cases hab : attachHelper (String.intercalate "\n" (queueReminders s'))
          (outboundBase s'.messages) with
      | none =>
        refine ⟨m, ?_, hh, hcont⟩
        unfold attachToLastHuman
        rw [hab]
        exact hbase
      | some b' =>
        have hmem' := attachHelper_mem _ _ _ hab m hbase
        rcases hmem' with h' | ⟨cm, hcm, hcm'⟩
        · refine ⟨m, ?_, hh, hcont⟩
          unfold attachToLastHuman
          rw [hab]
          exact h'
        · refine ⟨Msg.human (String.intercalate "\n" (queueReminders s') ++
            "\n\n" ++ cm), ?_, rfl, ?_⟩
          · unfold attachToLastHuman
            rw [hab]
            exact hcm'
          · apply strContains_append_right
            rw [hcm] at hcont
            exact hcont
    · rw [if_neg hc2]
      dsimp only
      exact ⟨m, hbase, hh, hcont⟩

/-- Witness for C10: the queued reminder is baked into the stored Human
message, and a history containing that mutated message keeps showing the
reminder text in the outbound view. -/
theorem reminder_mutation_persists_witness :
    (assembleMessages
      { messages := [Msg.human "hello"], rounds_without_todo := 3,
        pending_reminders := ["r"] }).stored =
      [] ++ Msg.human
        (String.intercalate "\n" (queueReminders
          { messages := [Msg.human "hello"], rounds_without_todo := 3,
            pending_reminders := ["r"] }) ++ "\n\n" ++ "hello") :: [] ∧
    strContains
      (String.intercalate "\n" (queueReminders
        { messages := [Msg.human "hello"], rounds_without_todo := 3,
          pending_reminders := ["r"] }) ++ "\n\n" ++ "hello")
      (String.intercalate "\n" (queueReminders
        { messages := [Msg.human "hello"], rounds_without_todo := 3,
          pending_reminders := ["r"] })) = true :=
  ⟨(reminder_mutation_persists
      { messages := [Msg.human "hello"], rounds_without_todo := 3,
        pending_reminders := ["r"] } [] [] "hello" (by decide) rfl
      (by decide)).1,
   (reminder_mutation_persists
      { messages := [Msg.human "hello"], rounds_without_todo := 3,
        pending_reminders := ["r"] } [] [] "hello" (by decide) rfl
      (by decide)).2.1⟩

/-- C7 counterexample: a turn whose Assistant response carries zero tool
calls routes to the terminal branch, yet the counter still changes, from
3 to 4 — `call_model` increments it on every model invocation. -/
theorem rounds_increment_cex :
    should_continue ((call_model_step
      { messages := [Msg.system "sp", Msg.human "hi"], rounds_without_todo := 3,
        pending_reminders := [] } (Msg.assistant "done" [])).messages) =
      Route.terminal ∧
    (call_model_step
      { messages := [Msg.system "sp", Msg.human "hi"], rounds_without_todo := 3,
        pending_reminders := [] } (Msg.assistant "done" [])).rounds_without_todo
      = 4 ∧
    (4 : Nat) ≠ 3 := by
  refine ⟨by decide, rfl, by decide⟩

/-- C7 (amended): the counter is incremented by exactly one at every model
invocation — once per turn as a whole, independent of how many tool calls
the response requests, and also on terminal turns (it is never left
unchanged by a turn's model call). -/
theorem rounds_increment (s : AgentState) (response : Msg) :
    (call_model_step s response).rounds_without_todo =
      s.rounds_without_todo + 1 ∧
    (call_model_step s response).rounds_without_todo ≠
      s.rounds_without_todo := by
  exact ⟨rfl, by simp [call_model_step]⟩

/-- A successful `todo_write` resets the module-level counter and returns
a payload carrying a board-activity marker. -/
theorem todo_write_ok_signals (g : GlobalCtx) (items : List TodoInput)
    (r : String) (h : (todo_write g items).2 = Except.ok r) :
    (todo_write g items).1.agent_rounds = 0 ∧
    (strContains r "Status updated" = true ∨ strContains r "No todos" = true) := by
  unfold todo_write at h ⊢
  cases hu : TodoManager.update items with
  | error e =>
    rw [hu] at h
    simp at h
  | ok p =>
    obtain ⟨cleaned, view⟩ := p
    rw [hu] at h
    dsimp only at h ⊢
    have hr := Except.ok.inj h
    refine ⟨rfl, ?_⟩
    rw [← hr]
    by_cases hz : (TodoManager.stats cleaned).total = 0
    · right
      rw [if_pos hz]
      apply strContains_append_right
      decide
    · left
      rw [if_neg hz]
      apply strContains_append_right
      unfold strContains
      apply charsContain_of_prefix
      simp only [String.data_append, List.append_assoc]
      exact isPrefixOf_append _ _ _ (by decide)

/-- C8 counterexample: a successful `todo_write` resets only the
module-level `AGENT_STATE` dict; in a turn where a second tool call runs
after it, the counter the reminder policy reads at the next evaluation is
1 (the `call_model` increment), not 0. -/
theorem todo_write_reset_cex :
    (todo_write { todo_board := [], agent_rounds := 7 }
        [{ id := "1", content := "a", status := "pending", activeForm := "x" }]).1.agent_rounds
      = 0 ∧
    (todo_write { todo_board := [], agent_rounds := 7 }
        [{ id := "1", content := "a", status := "pending", activeForm := "x" }]).2
      = Except.ok "\x1b[38;2;176;176;176m☐ a\x1b[0m\n\nStatus updated: 0 completed, 0 in progress." ∧
    (after_tools (tools_step (call_model_step
        { messages := [Msg.system "sp", Msg.human "hi"], rounds_without_todo := 3,
          pending_reminders := [] }
        (Msg.assistant "" [{ name := "todo_write", id := "c1" },
          { name := "bash", id := "c2" }]))
        [Msg.toolResult
            "\x1b[38;2;176;176;176m☐ a\x1b[0m\n\nStatus updated: 0 completed, 0 in progress."
            "c1",
         Msg.toolResult "done" "c2"])).rounds_without_todo = 4 ∧
    (4 : Nat) ≠ 0 := by
  refine ⟨rfl, rfl, by decide, by decide⟩

/-- C8 (amended): the counter visible to the reminder policy is reset by
`after_tools`, and only when the most recent tool result of the turn
signals board activity; in particular, when the successful `todo_write`
result is the turn's last tool result, the next policy evaluation reads 0
(while the tool's own reset touches only the module-level dict). -/
theorem todo_write_reset (g : GlobalCtx) (items : List TodoInput)
    (s : AgentState) (response : Msg) (earlier : List Msg) (r cid : String)
    (hw : (todo_write g items).2 = Except.ok r) :
    (todo_write g items).1.agent_rounds = 0 ∧
    (after_tools (tools_step (call_model_step s response)
        (earlier ++ [Msg.toolResult r cid]))).rounds_without_todo = 0 := by
  obtain ⟨hz, hsig⟩ := todo_write_ok_signals g items r hw
  refine ⟨hz, ?_⟩
  unfold after_tools tools_step
  dsimp only
  rw [← List.append_assoc, List.getLast?_concat]
  dsimp only
  rw [if_pos hsig]

/-- Witness for the amended C8: with the successful `todo_write` result as
the last tool result of the turn, the next policy read is 0. -/
theorem todo_write_reset_witness :
    (todo_write { todo_board := [], agent_rounds := 9 }
        [{ id := "7", content := "w", status := "pending", activeForm := "v" }]).1.agent_rounds
      = 0 ∧
    (after_tools (tools_step (call_model_step
        { messages := [Msg.system "s2", Msg.human "h2"], rounds_without_todo := 6,
          pending_reminders := [] }
        (Msg.assistant "" [{ name := "todo_write", id := "c9" }]))
        ([] ++ [Msg.toolResult
          "\x1b[38;2;176;176;176m☐ w\x1b[0m\n\nStatus updated: 0 completed, 0 in progress."
          "c9"]))).rounds_without_todo = 0 :=
  todo_write_reset { todo_board := [], agent_rounds := 9 }
    [{ id := "7", content := "w", status := "pending", activeForm := "v" }]
    { messages := [Msg.system "s2", Msg.human "h2"], rounds_without_todo := 6,
      pending_reminders := [] }
    (Msg.assistant "" [{ name := "todo_write", id := "c9" }]) []
    "\x1b[38;2;176;176;176m☐ w\x1b[0m\n\nStatus updated: 0 completed, 0 in progress."
    "c9" (by rfl)

end LanggraphAgent
